import Mathlib

/-!
Verification of the Gradescope evaluation-reconciliation and scoring engine
(src/gradescope_report.ts) against its natural-language specification.

Strings are modelled as lists of characters (`Str`), so that the JavaScript
string operations used by the source (`split`, `indexOf`-based filtering,
concatenation, `includes`) become ordinary list operations.  Functions that
can `throw` in the source are modelled in the `Except String` monad.
-/

/-- Character-list model of JavaScript strings. -/
abbrev Str := List Char

/-- Conversion from a Lean string literal to the character-list model. -/
def str (s : String) : Str := s.toList

/-- Test record (src/gradescope_report.ts lines 10-13): a single assertion
outcome with its source location. -/
structure Test where
  loc : Str
  passed : Bool
deriving DecidableEq, Repr

/-- TestBlock record (lines 15-20): a named block of tests; `error = true`
means the block itself raised during execution. -/
structure TestBlock where
  name : Str
  loc : Str
  error : Bool
  tests : List Test
deriving DecidableEq, Repr

/-- Execution-error kinds (lines 22-28). -/
inductive ErrKind
  | Unknown
  | Compilation
  | OutOfMemory
  | Timeout
  | Runtime
deriving DecidableEq, Repr

/-- String value of each `Err` enum member (lines 22-28), as interpolated by
JavaScript template strings. -/
def errKindStr : ErrKind → Str
  | .Unknown => str "Unknown"
  | .Compilation => str "Compilation"
  | .OutOfMemory => str "OutOfMemory"
  | .Timeout => str "Timeout"
  | .Runtime => str "Runtime"

/-- Result union (lines 30-33).  The source emulates a tagged union with two
optional fields of which exactly one is populated (spec section 3); we model
it as a true sum type. -/
inductive EvalResult
  | Ok (blocks : List TestBlock)
  | Err (e : ErrKind)
deriving DecidableEq, Repr

/-- Evaluation record (lines 35-39): one (code variant, test suite) pairing. -/
structure Evaluation where
  code : Str
  tests : Str
  result : EvalResult
deriving DecidableEq, Repr

/-- Visibility enum (lines 53-57). -/
inductive Visibility
  | Visible
  | AfterPublished
  | Hidden
deriving DecidableEq, Repr

/-- ReportSection enum (lines 59-63). -/
inductive ReportSection
  | Functionality
  | Wheat
  | Chaff
deriving DecidableEq, Repr

/-- ReportType enum (lines 65-69). -/
inductive ReportType
  | Examplar
  | Detailed
  | Score
deriving DecidableEq, Repr

/-- Extra data attached to every per-item report (lines 85-88).  The field
`sect` models the source field named `section` (a Lean keyword). -/
structure ExtraData where
  sect : ReportSection
  type : ReportType
deriving DecidableEq, Repr

/-- GradescopeTestReport record (lines 79-89).  The `score` and `max_score`
fields are optional in the source (examplar reports omit them), hence
`Option Nat` here. -/
structure GradescopeTestReport where
  name : Str
  output : Str
  score : Option Nat
  max_score : Option Nat
  visibility : Visibility
  extra_data : ExtraData
deriving DecidableEq, Repr

/-- Model of `String.prototype.split` with a single-character separator, as
used by `get_loc_name` (line 267: `loc.split("/")`).  Splitting never
returns an empty list; the `[[c]]` arm of the inner match is unreachable. -/
def splitChar (sep : Char) : Str → List Str
  | [] => [[]]
  | c :: rest =>
    match splitChar sep rest with
    | [] => [[c]]
    | p :: ps => if c = sep then [] :: p :: ps else (c :: p) :: ps

/-- Model of `String.prototype.split` with a multi-character separator, as
used by `get_line_number` (line 254: `test_loc.split(".arr:")`). -/
def splitOnList (sep : Str) : Str → List Str
  | [] => [[]]
  | c :: rest =>
    if h : sep ≠ [] ∧ sep.isPrefixOf (c :: rest) then
      [] :: splitOnList sep ((c :: rest).drop sep.length)
    else
      match splitOnList sep rest with
      | [] => []
      | p :: ps => (c :: p) :: ps
termination_by l => l.length
decreasing_by
  · simp only [List.length_drop, List.length_cons]
    have : 1 ≤ sep.length := by
      cases sep with
      | nil => exact absurd rfl h.1
      | cons a as => simp
    omega
  · simp

/-- Function `get_loc_name` (lines 266-271): split the location on every
slash and keep the last part (`parts[parts.length - 1]`). -/
def get_loc_name (loc : Str) : Str :=
  (splitChar '/' loc).getLastD []

/-- Function `get_line_number` (lines 253-255): `test_loc.split(".arr:")[1]`.
When the separator does not occur the JavaScript index is `undefined` and a
template string renders it as the text "undefined". -/
def get_line_number (test_loc : Str) : Str :=
  match (splitOnList (str ".arr:") test_loc).get? 1 with
  | some p => p
  | none => str "undefined"

/-- Function `get_code_file_name` (lines 238-241).  The external call
`path.basename(evaluation.code)` is modelled as the final slash-separated
component of the path. -/
def get_code_file_name (evaluation : Evaluation) : Str :=
  get_loc_name evaluation.code

/-- Normalization of one test (line 164: `test.loc = get_loc_name(test.loc)`). -/
def norm_test (t : Test) : Test :=
  { t with loc := get_loc_name t.loc }

/-- Normalization of one block (lines 162-165): rewrite the block location
and every test location. -/
def norm_block (b : TestBlock) : TestBlock :=
  { b with loc := get_loc_name b.loc, tests := b.tests.map norm_test }

/-- Function `normalize_code_names` (lines 159-168).  The in-place mutation
of the source is modelled by returning the updated evaluation; an Err result
has no blocks and is left untouched. -/
def normalize_code_names (evaluation : Evaluation) : Evaluation :=
  match evaluation.result with
  | .Ok blocks => { evaluation with result := .Ok (blocks.map norm_block) }
  | .Err _ => evaluation

/-- TestFailure enum (lines 281-285). -/
inductive TestFailure
  | Pass
  | Fail
  | Err
deriving DecidableEq, Repr

/-- Failure payload of a report (lines 289-292): the failing tests paired
with their owning blocks, and the errored blocks. -/
structure Failures where
  tests : List (Test × TestBlock)
  blocks : List TestBlock
deriving DecidableEq, Repr

/-- TestFailureReport record (lines 287-293).  The `failures` field is
optional in the source and absent for Pass and Err reports. -/
structure TestFailureReport where
  success : TestFailure
  failures : Option Failures
deriving DecidableEq, Repr

/-- Collection loop of lines 313-327, test part: every test with
`passed = false` is collected in block order, paired with its owning block. -/
def invalid_tests_of (blocks : List TestBlock) : List (Test × TestBlock) :=
  blocks.flatMap fun block =>
    (block.tests.filter fun test => test.passed = false).map fun test => (test, block)

/-- Collection loop of lines 313-327, block part: every block with
`error = true` is collected in order. -/
def invalid_blocks_of (blocks : List TestBlock) : List TestBlock :=
  blocks.filter fun block => block.error

/-- Function `get_invalid_tests_and_blocks` (lines 305-341): the Failure
Detector.  Pass is returned when both collections are empty. -/
def get_invalid_tests_and_blocks (wheat : Evaluation) : TestFailureReport :=
  match wheat.result with
  | .Err _ => { success := .Err, failures := none }
  | .Ok blocks =>
    if (invalid_tests_of blocks).length = 0 ∧ (invalid_blocks_of blocks).length = 0 then
      { success := .Pass, failures := none }
    else
      { success := .Fail,
        failures := some { tests := invalid_tests_of blocks, blocks := invalid_blocks_of blocks } }

/-- Rendering of `wheat_result.result.Err` inside a template string (lines
406 and 582).  When the result is Ok the JavaScript field access yields
`undefined`, rendered as the text "undefined". -/
def errOfStr (evaluation : Evaluation) : Str :=
  match evaluation.result with
  | .Err k => errKindStr k
  | .Ok _ => str "undefined"

/-- Message for an errored block in the examplar wheat and chaff reports
(lines 415 and 465). -/
def examplarBlockMsg (block : TestBlock) : Str :=
  str "Block \"" ++ block.name ++ str "\" at lines " ++ get_line_number block.loc
    ++ str " raised an error."

/-- Message for a failing test in the examplar wheat report (lines 420-421). -/
def examplarWheatTestMsg (tb : Test × TestBlock) : Str :=
  str "Test failed in block \"" ++ tb.2.name ++ str "\" at lines "
    ++ get_line_number tb.2.loc ++ str "; Test location: " ++ get_line_number tb.1.loc

/-- WheatMessagesReport record (lines 390-393).  The source leaves
`messages` unset on the valid return (line 401); that field is never read in
that case, and is modelled by the empty list. -/
structure WheatMessagesReport where
  valid : Bool
  messages : List Str
deriving DecidableEq, Repr

/-- Crash message used to model a JavaScript TypeError raised by reading a
property of `undefined`. -/
def typeErrorMsg : Str := str "TypeError: cannot read properties of undefined"

/-- Branching part of `generate_wheat_messages` (lines 399-432), factored
over the already-computed failure report.  Note that the source returns
`valid: true` in the Fail branch (line 429) even though it has just built
the failure messages; this is kept faithfully. -/
def wheat_messages_from_report (wheat_result : Evaluation) (test_report : TestFailureReport) :
    Except Str WheatMessagesReport :=
  match test_report.success with
  | .Pass => .ok { valid := true, messages := [] }
  | .Err => .ok { valid := false, messages := [str "Wheat errored; " ++ errOfStr wheat_result] }
  | .Fail =>
    match test_report.failures with
    | none => .error typeErrorMsg
    | some invalids =>
      let messages : List Str :=
        invalids.blocks.map examplarBlockMsg ++ invalids.tests.map examplarWheatTestMsg
      if messages.length = 0 then
        .error (str "Contact instructor; Wheat failed, but no reason given.")
      else
        .ok { valid := true, messages := messages }

/-- Function `generate_wheat_messages` (lines 395-433). -/
def generate_wheat_messages (wheat_result : Evaluation) : Except Str WheatMessagesReport :=
  wheat_messages_from_report wheat_result (get_invalid_tests_and_blocks wheat_result)

/-- Accumulation loop of `generate_examplar_wheat_report` (lines 352-363):
fold every wheat, flipping `valid` to false and appending the messages of
each invalid wheat report. -/
def collect_step (acc : Bool × List Str) (wheat_result : Evaluation) :
    Except Str (Bool × List Str) :=
  match generate_wheat_messages wheat_result with
  | .error e => .error e
  | .ok wheat_report =>
    if wheat_report.valid = false then
      .ok (false, acc.2 ++ wheat_report.messages)
    else
      .ok acc

/-- Accumulated validity and messages of the loop in
`generate_examplar_wheat_report` (lines 352-363). -/
def collect_wheat_messages (wheat_results : List Evaluation) : Except Str (Bool × List Str) :=
  wheat_results.foldlM collect_step (true, [])

/-- Model of `Array.prototype.indexOf`: index of the first occurrence of
`v` (the length of the list when `v` is absent, in which case the JavaScript
value -1 likewise never equals a valid index). -/
def jsIndexOf (v : Str) : List Str → Nat
  | [] => 0
  | m :: rest => if m = v then 0 else jsIndexOf v rest + 1

/-- Duplicate-removal filter of line 373:
`messages.filter((v, i) => messages.indexOf(v) === i)`, unrolled with an
explicit running index. -/
def dedupFrom (msgs : List Str) : Nat → List Str → List Str
  | _, [] => []
  | i, v :: rest =>
    if jsIndexOf v msgs = i then v :: dedupFrom msgs (i + 1) rest
    else dedupFrom msgs (i + 1) rest

/-- JavaScript first-occurrence deduplication applied to the whole message
list (line 373). -/
def jsDedup (msgs : List Str) : List Str := dedupFrom msgs 0 msgs

/-- Function `generate_examplar_wheat_report` (lines 351-388). -/
def generate_examplar_wheat_report (wheat_results : List Evaluation) :
    Except Str GradescopeTestReport :=
  match collect_wheat_messages wheat_results with
  | .error e => .error e
  | .ok full =>
  if full.1 then
    .ok { name := str "VALID",
          output := str "These tests are valid and consistent with the assignment handout.",
          score := none, max_score := none,
          visibility := .Visible,
          extra_data := { sect := .Wheat, type := .Examplar } }
  else
    let messages := jsDedup full.2
    .ok { name := str "INVALID",
          output := str "Your test suite failed at least one of our wheats.\n"
            ++ List.intercalate (str "\n") messages,
          score := none, max_score := none,
          visibility := .Visible,
          extra_data := { sect := .Wheat, type := .Examplar } }

/-- Rendering of a natural number inside a template string. -/
def natStr (n : Nat) : Str := (Nat.repr n).toList

/-- Message for a failing test in the examplar chaff report (line 470). -/
def examplarChaffTestMsg (tb : Test × TestBlock) : Str :=
  str "Test block: \"" ++ tb.2.name ++ str "\"; Test lines: " ++ get_line_number tb.1.loc

/-- Branching part of `generate_examplar_chaff_report` (lines 449-489),
factored over the already-computed failure report. -/
def examplarChaffReportOf (pair : Str × Str) : GradescopeTestReport :=
  { name := pair.1, output := pair.2,
    score := none, max_score := none,
    visibility := .Visible,
    extra_data := { sect := .Chaff, type := .Examplar } }

/-- Branching part of `generate_examplar_chaff_report` (lines 449-489),
factored over the already-computed failure report. -/
def chaff_examplar_from_report (chaff_result : Evaluation) (chaff_number : Nat)
    (test_report : TestFailureReport) : Except Str GradescopeTestReport :=
  match test_report.success with
  | .Pass =>
    .ok (examplarChaffReportOf
      (str "Chaff number " ++ natStr chaff_number ++ str " not caught.", str ""))
  | .Err =>
    .ok (examplarChaffReportOf
      (str "Chaff number " ++ natStr chaff_number ++ str " caught!",
       str "Chaff errored: " ++ errOfStr chaff_result
         ++ str ".\nNote that this means you are not testing defensively."))
  | .Fail =>
    match test_report.failures with
    | none => .error typeErrorMsg
    | some invalids =>
      let messages : List Str :=
        invalids.blocks.map examplarBlockMsg ++ invalids.tests.map examplarChaffTestMsg
      if messages.length = 0 then
        .error (str "Contact instructor; Chaff failed, but no reason given.")
      else
        .ok (examplarChaffReportOf
          (str "Chaff number " ++ natStr chaff_number ++ str " caught!",
           str "The following tests caught this chaff:\n"
             ++ List.intercalate (str "\n") messages))

/-- Function `generate_examplar_chaff_report` (lines 443-490). -/
def generate_examplar_chaff_report (chaff_result : Evaluation) (chaff_number : Nat) :
    Except Str GradescopeTestReport :=
  chaff_examplar_from_report chaff_result chaff_number (get_invalid_tests_and_blocks chaff_result)

/-- Message appended for each failing test in the detailed wheat report
(line 591). -/
def detailedWheatTestMsg (tb : Test × TestBlock) : Str :=
  str "Wheat failed test in block \"" ++ tb.2.name ++ str "\" at location "
    ++ tb.1.loc ++ str "\n"

/-- Message assigned for each errored block in the detailed wheat report
(line 596); the assignment overwrites whatever was accumulated before. -/
def detailedWheatBlockMsg (block : TestBlock) : Str :=
  str "Wheat caused error in block \"" ++ block.name ++ str "\"\n"

/-- Constant part of the detailed wheat report (lines 604-614). -/
def detailedWheatReportOf (wheat_result : Evaluation) (pair : Str × Nat) :
    GradescopeTestReport :=
  { name := str "Wheat: " ++ get_code_file_name wheat_result,
    output := pair.1, score := some pair.2, max_score := some 1,
    visibility := .AfterPublished,
    extra_data := { sect := .Wheat, type := .Detailed } }

/-- Function `generate_detailed_wheat_report` (lines 570-615).  The test
loop appends to `output` (`output +=`, line 591) while the block loop
overwrites it (`output =`, line 596); both loops are modelled by folds with
exactly those update functions. -/
def generate_detailed_wheat_report (wheat_result : Evaluation) :
    Except Str GradescopeTestReport :=
  let test_report := get_invalid_tests_and_blocks wheat_result
  match test_report.success with
  | .Pass => .ok (detailedWheatReportOf wheat_result (str "Passed wheat!", 1))
  | .Err =>
    .ok (detailedWheatReportOf wheat_result (str "Wheat errored; " ++ errOfStr wheat_result, 0))
  | .Fail =>
    match test_report.failures with
    | none => .error typeErrorMsg
    | some invalids =>
      let out1 : Str := invalids.tests.foldl (fun acc tb => acc ++ detailedWheatTestMsg tb) []
      let out2 : Str := invalids.blocks.foldl (fun _ block => detailedWheatBlockMsg block) out1
      if out2 = [] then .error (str "Wheat failed but no reason given.")
      else .ok (detailedWheatReportOf wheat_result (out2, 0))

/-- Loop body of the known-bad collection in `generate_detailed_chaff_report`
(lines 633-641): a wheat whose report is not Pass contributes its invalid
tests and blocks.  A non-Pass report carrying no `failures` payload (an Err
wheat) makes the source read `invalids.tests` on `undefined`, a TypeError,
modelled as an error. -/
def invalid_step (acc : List Test × List TestBlock) (wheat_result : Evaluation) :
    Except Str (List Test × List TestBlock) :=
  let test_report := get_invalid_tests_and_blocks wheat_result
  if test_report.success ≠ TestFailure.Pass then
    match test_report.failures with
    | none => Except.error typeErrorMsg
    | some invalids =>
      pure (acc.1 ++ invalids.tests.map (fun tb => tb.1), acc.2 ++ invalids.blocks)
  else
    pure acc

/-- Location collection of `generate_detailed_chaff_report` (line 643):
every collected test location followed by every collected block location. -/
def all_invalid_locs (wheat_results : List Evaluation) : Except Str (List Str) :=
  match wheat_results.foldlM invalid_step ([], []) with
  | .error e => .error e
  | .ok pair => .ok (pair.1.map (fun test => test.loc) ++ pair.2.map (fun block => block.loc))

/-- Block scan of the inner chaff function (lines 662-689): for each block
in order, an unmasked errored block is caught first; otherwise the first
unmasked failing test of the block is caught; otherwise move on.
Membership in `all_invalid_locs` models `includes`. -/
def chaff_scan (all_invalid_locs : List Str) : List TestBlock → Str × Nat
  | [] => (str "Chaff not caught.", 0)
  | block :: rest =>
    if block.error = true ∧ block.loc ∉ all_invalid_locs then
      (str "Chaff caught; error in block \"" ++ block.name ++ str "\"!", 1)
    else
      match block.tests.find?
          (fun test => decide (test.passed = false ∧ test.loc ∉ all_invalid_locs)) with
      | some _ =>
        (str "Chaff caught; test failed in block \"" ++ block.name ++ str "\"!", 1)
      | none => chaff_scan all_invalid_locs rest

/-- Helper `get_score_and_output` of the inner chaff function (lines
654-691). -/
def get_score_and_output (all_invalid_locs : List Str) (chaff_result : Evaluation) :
    Str × Nat :=
  match chaff_result.result with
  | .Err k => (str "Chaff caught; error: " ++ errKindStr k ++ str "!", 1)
  | .Ok blocks => chaff_scan all_invalid_locs blocks

/-- Inner function returned by `generate_detailed_chaff_report` (lines
653-706), taking the captured known-bad locations explicitly. -/
def generate_detailed_chaff_report_inner (all_invalid_locs : List Str)
    (chaff_result : Evaluation) : GradescopeTestReport :=
  let result := get_score_and_output all_invalid_locs chaff_result
  { name := str "Chaff: " ++ get_code_file_name chaff_result,
    output := result.1, score := some result.2, max_score := some 1,
    visibility := .AfterPublished,
    extra_data := { sect := .Chaff, type := .Detailed } }

/-- Detailed chaff reporting phase of `main` (line 836):
`chaff_results.map(generate_detailed_chaff_report(wheat_results))`.  The
call building the known-bad set is evaluated before the map, so its
TypeError fires even when there are no chaffs. -/
def detailed_chaff_reports (wheat_results chaff_results : List Evaluation) :
    Except Str (List GradescopeTestReport) :=
  match all_invalid_locs wheat_results with
  | .error e => .error e
  | .ok locs => .ok (chaff_results.map (generate_detailed_chaff_report_inner locs))

/-- Weight lookup of line 728:
`point_values.has(report.name) ? point_values.get(report.name) : 1`.  The
Map is modelled as an association list. -/
def weightOf (point_values : List (Str × Nat)) (report : GradescopeTestReport) : Nat :=
  match List.lookup report.name point_values with
  | some p => p
  | none => 1

/-- Function `generate_score_report` (lines 716-746). -/
def generate_score_report (reports : List GradescopeTestReport)
    (point_values : List (Str × Nat)) (name : Str) (sect : ReportSection) :
    GradescopeTestReport :=
  let pair := reports.foldl
    (fun (acc : Nat × Nat) report =>
      (acc.1 + (if report.score = report.max_score then weightOf point_values report else 0),
       acc.2 + weightOf point_values report))
    (0, 0)
  { name := str "Score: " ++ name, output := [],
    score := some pair.1, max_score := some pair.2,
    visibility := .Hidden,
    extra_data := { sect := sect, type := .Score } }

/-- Modelled from the spec: the substring of a location following the final
slash (the whole string when it has no slash), spec section 4.1. -/
def afterLastSlash (loc : Str) : Str :=
  (loc.reverse.takeWhile (fun c => c ≠ '/')).reverse

/-- Modelled from the spec: canonical first-occurrence deduplication, spec
section 4.4 — keep each distinct message once, at its first occurrence,
removing every later duplicate. -/
def firstOccDedup : List Str → List Str
  | [] => []
  | v :: rest => v :: (firstOccDedup rest).filter (fun m => m ≠ v)

/-!
Helper lemmas.
-/

lemma jsIndexOf_cons_self (v : Str) (l : List Str) : jsIndexOf v (v :: l) = 0 := by
  simp [jsIndexOf]

lemma jsIndexOf_cons_ne (v m : Str) (l : List Str) (h : m ≠ v) :
    jsIndexOf v (m :: l) = jsIndexOf v l + 1 := by
  simp [jsIndexOf, h]

lemma dedupFrom_cons (a : Str) (l : List Str) :
    ∀ (rest : List Str) (i : Nat),
      dedupFrom (a :: l) (i + 1) rest = (dedupFrom l i rest).filter (fun v => v ≠ a) := by
  intro rest
  induction rest with
  | nil => intro i; simp [dedupFrom]
  | cons v rest ih =>
    intro i
    simp only [dedupFrom]
    by_cases hva : v = a
    · subst hva
      rw [jsIndexOf_cons_self]
      have h0 : ¬ (0 = i + 1) := by omega
      rw [if_neg h0]
      by_cases hidx : jsIndexOf v l = i
      · rw [if_pos hidx, ih, List.filter_cons]
        simp
      · rw [if_neg hidx, ih]
    · rw [jsIndexOf_cons_ne v a l (Ne.symm hva)]
      by_cases hidx : jsIndexOf v l = i
      · have hp : jsIndexOf v l + 1 = i + 1 := by omega
        rw [if_pos hp, if_pos hidx, ih, List.filter_cons]
        simp [hva]
      · have hn : ¬ (jsIndexOf v l + 1 = i + 1) := by omega
        rw [if_neg hn, if_neg hidx, ih]

lemma jsDedup_cons (a : Str) (l : List Str) :
    jsDedup (a :: l) = a :: (jsDedup l).filter (fun v => v ≠ a) := by
  show dedupFrom (a :: l) 0 (a :: l) = _
  rw [dedupFrom, jsIndexOf_cons_self, if_pos rfl, dedupFrom_cons]
  rfl

lemma jsDedup_eq_firstOccDedup (l : List Str) : jsDedup l = firstOccDedup l := by
  induction l with
  | nil => rfl
  | cons a l ih => rw [jsDedup_cons, ih, firstOccDedup]

lemma firstOccDedup_count (l : List Str) (m : Str) :
    (firstOccDedup l).count m = if m ∈ l then 1 else 0 := by
  induction l with
  | nil => simp [firstOccDedup]
  | cons a l ih =>
    rw [firstOccDedup]
    by_cases hma : m = a
    · subst hma
      have hni : m ∉ (firstOccDedup l).filter (fun v => v ≠ m) := by
        intro hmem
        have h2 := (List.mem_filter.mp hmem).2
        simp at h2
      rw [List.count_cons_self, List.count_eq_zero_of_not_mem hni]
      simp
    · rw [List.count_cons_of_ne hma, List.count_filter (by simpa using hma), ih]
      simp [List.mem_cons, hma]

lemma firstOccDedup_sublist (l : List Str) : (firstOccDedup l).Sublist l := by
  induction l with
  | nil => simp [firstOccDedup]
  | cons a l ih =>
    rw [firstOccDedup]
    exact List.Sublist.cons₂ a (((firstOccDedup l).filter_sublist).trans ih)

lemma firstOccDedup_nodup (l : List Str) : (firstOccDedup l).Nodup := by
  induction l with
  | nil => simp [firstOccDedup]
  | cons a l ih =>
    rw [firstOccDedup]
    refine List.Nodup.cons ?_ (List.Nodup.filter _ ih)
    intro hmem
    have h2 := (List.mem_filter.mp hmem).2
    simp at h2

lemma splitChar_ne_nil (sep : Char) (l : Str) : splitChar sep l ≠ [] := by
  cases l with
  | nil => simp [splitChar]
  | cons c rest =>
    rw [splitChar]
    cases h : splitChar sep rest with
    | nil => simp
    | cons p ps =>
      by_cases hc : c = sep <;> simp [hc]

lemma splitChar_no_sep (sep : Char) (l : Str) (h : sep ∉ l) : splitChar sep l = [l] := by
  induction l with
  | nil => rfl
  | cons c rest ih =>
    have hcr : sep ∉ rest := fun hm => h (List.mem_cons_of_mem c hm)
    have hc : c ≠ sep := fun he => h (he ▸ List.mem_cons_self c rest)
    rw [splitChar, ih hcr]
    simp [hc]

lemma takeWhile_append_last {p : Char → Bool} (xs : Str) (b : Char) (hb : p b = false) :
    (xs ++ [b]).takeWhile p = xs.takeWhile p := by
  induction xs with
  | nil => simp [List.takeWhile, hb]
  | cons x xs ih =>
    by_cases hx : p x = true
    · simp [List.takeWhile_cons, hx, ih]
    · simp [List.takeWhile_cons, hx]

lemma takeWhile_append_of_bad {p : Char → Bool} (xs ys : Str) (h : ∃ x ∈ xs, p x = false) :
    (xs ++ ys).takeWhile p = xs.takeWhile p := by
  induction xs with
  | nil =>
    obtain ⟨x, hx, _⟩ := h
    exact absurd hx (List.not_mem_nil x)
  | cons x xs ih =>
    by_cases hx : p x = true
    · have hrest : ∃ y ∈ xs, p y = false := by
        obtain ⟨y, hy, hyp⟩ := h
        rcases List.mem_cons.mp hy with he | hm
        · exact absurd (he ▸ hx) (by simp [hyp])
        · exact ⟨y, hm, hyp⟩
      simp [List.takeWhile_cons, hx, ih hrest]
    · simp [List.takeWhile_cons, hx]

lemma afterLastSlash_cons_slash (rest : Str) :
    afterLastSlash ('/' :: rest) = afterLastSlash rest := by
  show ((('/' :: rest).reverse.takeWhile _)).reverse = _
  rw [List.reverse_cons, takeWhile_append_last _ '/' (by simp)]
  rfl

lemma afterLastSlash_cons_of_mem (c : Char) (rest : Str) (h : '/' ∈ rest) :
    afterLastSlash (c :: rest) = afterLastSlash rest := by
  show ((c :: rest).reverse.takeWhile _).reverse = _
  rw [List.reverse_cons, takeWhile_append_of_bad _ _ ⟨'/', by simpa using h, by simp⟩]
  rfl

lemma afterLastSlash_of_no_slash (l : Str) (h : '/' ∉ l) : afterLastSlash l = l := by
  have hall : ∀ x ∈ l.reverse, (fun c => decide (c ≠ '/')) x = true := by
    intro x hx
    have : x ∈ l := List.mem_reverse.mp hx
    simp only [decide_eq_true_eq]
    intro he
    exact h (he ▸ this)
  unfold afterLastSlash
  rw [List.takeWhile_eq_self_iff.mpr hall, List.reverse_reverse]

lemma no_slash_in_afterLastSlash (l : Str) : '/' ∉ afterLastSlash l := by
  intro hmem
  have h1 : '/' ∈ l.reverse.takeWhile (fun c => c ≠ '/') := List.mem_reverse.mp hmem
  have h2 := List.takeWhile_subset (l := l.reverse) (p := fun c => decide (c ≠ '/'))
  have := List.mem_takeWhile_imp h1
  simp at this

lemma getLastD_irrel {α : Type} (l : List α) (h : l ≠ []) (a b : α) :
    l.getLastD a = l.getLastD b := by
  cases l with
  | nil => exact absurd rfl h
  | cons x xs => rw [List.getLastD_cons, List.getLastD_cons]

lemma splitChar_cons_eq (sep c : Char) (rest p : Str) (ps : List Str)
    (hs : splitChar sep rest = p :: ps) :
    splitChar sep (c :: rest) = if c = sep then [] :: p :: ps else (c :: p) :: ps := by
  rw [splitChar, hs]

lemma splitChar_mem_len (sep : Char) (l : Str) (h : sep ∈ l) :
    2 ≤ (splitChar sep l).length := by
  induction l with
  | nil => exact absurd h (List.not_mem_nil sep)
  | cons c rest ih =>
    cases hs : splitChar sep rest with
    | nil => exact absurd hs (splitChar_ne_nil sep rest)
    | cons p ps =>
      rw [splitChar_cons_eq sep c rest p ps hs]
      by_cases hc : c = sep
      · simp [hc]
      · have hrest : sep ∈ rest := by
          rcases List.mem_cons.mp h with he | hm
          · exact absurd he.symm hc
          · exact hm
        have hlen := ih hrest
        rw [hs] at hlen
        rw [if_neg hc]
        simp at hlen ⊢
        omega

lemma get_loc_name_eq_afterLastSlash (l : Str) : get_loc_name l = afterLastSlash l := by
  induction l with
  | nil => rfl
  | cons c rest ih =>
    unfold get_loc_name at *
    cases hs : splitChar '/' rest with
    | nil => exact absurd hs (splitChar_ne_nil '/' rest)
    | cons p ps =>
      rw [splitChar_cons_eq '/' c rest p ps hs]
      by_cases hc : c = '/'
      · subst hc
        rw [if_pos rfl, afterLastSlash_cons_slash, ← ih, hs, List.getLastD_cons,
          List.getLastD_cons]
      · rw [if_neg hc]
        by_cases hps : ps = []
        · subst hps
          have hrest : '/' ∉ rest := by
            intro hm
            have hlen := splitChar_mem_len '/' rest hm
            rw [hs] at hlen
            simp at hlen
          have hval : splitChar '/' rest = [rest] := splitChar_no_sep '/' rest hrest
          rw [hs] at hval
          have hp : p = rest := by simpa using hval
          subst hp
          have hnc : '/' ∉ c :: p := by
            intro hm
            rcases List.mem_cons.mp hm with he | hm2
            · exact hc he.symm
            · exact hrest hm2
          rw [afterLastSlash_of_no_slash (c :: p) hnc]
          simp [List.getLastD_cons]
        · have hslash : '/' ∈ rest := by
            by_contra hns
            have hv := splitChar_no_sep '/' rest hns
            rw [hs] at hv
            simp at hv
            exact hps hv.2
          rw [afterLastSlash_cons_of_mem c rest hslash, ← ih, hs, List.getLastD_cons,
            List.getLastD_cons]
          exact getLastD_irrel ps hps (c :: p) p

lemma get_loc_name_idem (l : Str) : get_loc_name (get_loc_name l) = get_loc_name l := by
  rw [get_loc_name_eq_afterLastSlash l]
  have hns := no_slash_in_afterLastSlash l
  rw [get_loc_name_eq_afterLastSlash, afterLastSlash_of_no_slash _ hns]

lemma chaff_scan_caught_iff (locs : List Str) (blocks : List TestBlock) :
    (chaff_scan locs blocks).2 = 1 ↔
      ∃ b ∈ blocks, (b.error = true ∧ b.loc ∉ locs) ∨
        ∃ t ∈ b.tests, t.passed = false ∧ t.loc ∉ locs := by
  induction blocks with
  | nil => simp [chaff_scan]
  | cons b rest ih =>
    rw [chaff_scan]
    by_cases hb : b.error = true ∧ b.loc ∉ locs
    · rw [if_pos hb]
      exact ⟨fun _ => ⟨b, List.mem_cons_self b rest, Or.inl hb⟩, fun _ => rfl⟩
    · rw [if_neg hb]
      cases hf : b.tests.find? (fun t => decide (t.passed = false ∧ t.loc ∉ locs)) with
      | some t =>
        have hsat := List.find?_some hf
        have hmem := List.mem_of_find?_eq_some hf
        simp only [decide_eq_true_eq] at hsat
        exact ⟨fun _ => ⟨b, List.mem_cons_self b rest, Or.inr ⟨t, hmem, hsat⟩⟩, fun _ => rfl⟩
      | none =>
        have hnone := List.find?_eq_none.mp hf
        rw [ih]
        constructor
        · rintro ⟨b', hb', hcase⟩
          exact ⟨b', List.mem_cons_of_mem b hb', hcase⟩
        · rintro ⟨b', hb', hcase⟩
          rcases List.mem_cons.mp hb' with he | hm
          · subst he
            rcases hcase with hberr | ⟨t, ht, hts⟩
            · exact absurd hberr hb
            · have := hnone t ht
              simp only [decide_eq_true_eq] at this
              exact absurd hts this
          · exact ⟨b', hm, hcase⟩

lemma chaff_scan_snd_zero_or_one (locs : List Str) (blocks : List TestBlock) :
    (chaff_scan locs blocks).2 = 0 ∨ (chaff_scan locs blocks).2 = 1 := by
  induction blocks with
  | nil => left; rfl
  | cons b rest ih =>
    rw [chaff_scan]
    by_cases hb : b.error = true ∧ b.loc ∉ locs
    · rw [if_pos hb]; right; rfl
    · rw [if_neg hb]
      cases hf : b.tests.find? (fun t => decide (t.passed = false ∧ t.loc ∉ locs)) with
      | some t => right; rfl
      | none => exact ih

lemma chaff_scan_cons_skip (locs : List Str) (b : TestBlock) (rest : List TestBlock)
    (hberr : ¬ (b.error = true ∧ b.loc ∉ locs))
    (hbtests : ∀ t ∈ b.tests, ¬ (t.passed = false ∧ t.loc ∉ locs)) :
    chaff_scan locs (b :: rest) = chaff_scan locs rest := by
  rw [chaff_scan, if_neg hberr]
  have hf : b.tests.find? (fun t => decide (t.passed = false ∧ t.loc ∉ locs)) = none := by
    rw [List.find?_eq_none]
    intro t ht
    simpa using hbtests t ht
  rw [hf]

lemma chaff_scan_cons_hit (locs : List Str) (b : TestBlock) (rest : List TestBlock)
    (hhit : (b.error = true ∧ b.loc ∉ locs) ∨ ∃ t ∈ b.tests, t.passed = false ∧ t.loc ∉ locs) :
    chaff_scan locs (b :: rest) =
      (if b.error = true ∧ b.loc ∉ locs then
        str "Chaff caught; error in block \"" ++ b.name ++ str "\"!"
      else str "Chaff caught; test failed in block \"" ++ b.name ++ str "\"!", 1) := by
  rw [chaff_scan]
  by_cases hb : b.error = true ∧ b.loc ∉ locs
  · rw [if_pos hb, if_pos hb]
  · rw [if_neg hb, if_neg hb]
    rcases hhit with hberr | ⟨t, ht, hts⟩
    · exact absurd hberr hb
    · cases hf : b.tests.find? (fun t => decide (t.passed = false ∧ t.loc ∉ locs)) with
      | some t2 => rfl
      | none =>
        have := List.find?_eq_none.mp hf t ht
        simp only [decide_eq_true_eq] at this
        exact absurd hts this

lemma detector_err (w : Evaluation) (k : ErrKind) (hk : w.result = .Err k) :
    get_invalid_tests_and_blocks w = { success := .Err, failures := none } := by
  unfold get_invalid_tests_and_blocks
  rw [hk]

lemma detector_ok_cases (w : Evaluation) (blocks : List TestBlock) (hb : w.result = .Ok blocks) :
    (get_invalid_tests_and_blocks w = { success := .Pass, failures := none } ∧
      invalid_tests_of blocks = [] ∧ invalid_blocks_of blocks = []) ∨
    (get_invalid_tests_and_blocks w =
      { success := .Fail,
        failures := some { tests := invalid_tests_of blocks, blocks := invalid_blocks_of blocks } } ∧
      ¬((invalid_tests_of blocks).length = 0 ∧ (invalid_blocks_of blocks).length = 0)) := by
  unfold get_invalid_tests_and_blocks
  rw [hb]
  dsimp only
  by_cases hc : (invalid_tests_of blocks).length = 0 ∧ (invalid_blocks_of blocks).length = 0
  · left
    rw [if_pos hc]
    exact ⟨rfl, List.length_eq_zero.mp hc.1, List.length_eq_zero.mp hc.2⟩
  · right
    rw [if_neg hc]
    exact ⟨rfl, hc⟩

lemma invalid_step_err (acc : List Test × List TestBlock) (w : Evaluation)
    (k : ErrKind) (hk : w.result = .Err k) :
    invalid_step acc w = Except.error typeErrorMsg := by
  unfold invalid_step
  rw [detector_err w k hk]
  rfl

lemma invalid_step_ok (acc : List Test × List TestBlock) (w : Evaluation)
    (blocks : List TestBlock) (hb : w.result = .Ok blocks) :
    ∃ acc2, invalid_step acc w = Except.ok acc2 := by
  unfold invalid_step
  rcases detector_ok_cases w blocks hb with ⟨hrep, _, _⟩ | ⟨hrep, _⟩
  · rw [hrep]
    exact ⟨acc, rfl⟩
  · rw [hrep]
    exact ⟨_, rfl⟩

lemma invalid_fold_error (wheats : List Evaluation) :
    ∀ acc, (∃ w ∈ wheats, ∃ k, w.result = EvalResult.Err k) →
      List.foldlM invalid_step acc wheats = Except.error typeErrorMsg := by
  induction wheats with
  | nil =>
    intro acc h
    obtain ⟨w, hw, _⟩ := h
    exact absurd hw (List.not_mem_nil w)
  | cons w rest ih =>
    intro acc h
    rw [List.foldlM_cons]
    cases hres : w.result with
    | Err k =>
      rw [invalid_step_err acc w k hres]
      rfl
    | Ok blocks =>
      obtain ⟨acc2, hacc2⟩ := invalid_step_ok acc w blocks hres
      rw [hacc2]
      have hrest : ∃ w2 ∈ rest, ∃ k, w2.result = EvalResult.Err k := by
        obtain ⟨w', hw', k, hk⟩ := h
        rcases List.mem_cons.mp hw' with he | hm
        · subst he
          rw [hres] at hk
          exact absurd hk (by simp)
        · exact ⟨w', hm, k, hk⟩
      exact ih acc2 hrest

lemma foldl_append_flatten {α : Type} (f : α → Str) (l : List α) :
    ∀ a : Str, l.foldl (fun acc x => acc ++ f x) a = a ++ (l.map f).flatten := by
  induction l with
  | nil => intro a; simp
  | cons x xs ih => intro a; simp [List.foldl_cons, ih]

lemma foldl_clobber {α : Type} (f : α → Str) :
    ∀ (l : List α) (a : Str) (d : α), l ≠ [] → l.foldl (fun _ x => f x) a = f (l.getLastD d) := by
  intro l
  induction l with
  | nil => intro a d h; exact absurd rfl h
  | cons x xs ih =>
    intro a d _
    cases xs with
    | nil => rw [List.foldl_cons, List.foldl_nil, List.getLastD_cons, List.getLastD_nil]
    | cons y ys =>
      rw [List.foldl_cons, List.getLastD_cons]
      exact ih (f x) x (by simp)

lemma score_foldl (pv : List (Str × Nat)) (reports : List GradescopeTestReport) :
    ∀ t p : Nat,
      reports.foldl (fun (acc : Nat × Nat) report =>
        (acc.1 + (if report.score = report.max_score then weightOf pv report else 0),
         acc.2 + weightOf pv report)) (t, p) =
      (t + (reports.map (fun r => if r.score = r.max_score then weightOf pv r else 0)).sum,
       p + (reports.map (weightOf pv)).sum) := by
  induction reports with
  | nil => intro t p; simp
  | cons r rest ih => intro t p; simp [List.foldl_cons, ih, Nat.add_assoc]

lemma detector_pass_none (w : Evaluation)
    (h : (get_invalid_tests_and_blocks w).success = TestFailure.Pass) :
    (get_invalid_tests_and_blocks w).failures = none := by
  cases hres : w.result with
  | Err k => rw [detector_err w k hres]
  | Ok blocks =>
    rcases detector_ok_cases w blocks hres with ⟨hrep, _, _⟩ | ⟨hrep, _⟩
    · rw [hrep]
    · rw [hrep] at h
      exact absurd h (by simp)

lemma detector_err_none (w : Evaluation)
    (h : (get_invalid_tests_and_blocks w).success = TestFailure.Err) :
    (get_invalid_tests_and_blocks w).failures = none := by
  cases hres : w.result with
  | Err k => rw [detector_err w k hres]
  | Ok blocks =>
    rcases detector_ok_cases w blocks hres with ⟨hrep, _, _⟩ | ⟨hrep, _⟩ <;>
      rw [hrep] at h <;> exact absurd h (by simp)

lemma detector_some (w : Evaluation) (f : Failures)
    (h : (get_invalid_tests_and_blocks w).failures = some f) :
    ∃ blocks, w.result = EvalResult.Ok blocks ∧
      f.tests = invalid_tests_of blocks ∧ f.blocks = invalid_blocks_of blocks ∧
      ¬((invalid_tests_of blocks).length = 0 ∧ (invalid_blocks_of blocks).length = 0) ∧
      (get_invalid_tests_and_blocks w).success = TestFailure.Fail := by
  cases hres : w.result with
  | Err k =>
    rw [detector_err w k hres] at h
    exact absurd h (by simp)
  | Ok blocks =>
    rcases detector_ok_cases w blocks hres with ⟨hrep, _, _⟩ | ⟨hrep, hne⟩
    · rw [hrep] at h
      exact absurd h (by simp)
    · rw [hrep] at h
      simp only [Option.some.injEq] at h
      subst h
      exact ⟨blocks, rfl, rfl, rfl, hne, by rw [hrep]⟩

lemma invalid_tests_mem (blocks : List TestBlock) (tb : Test × TestBlock)
    (h : tb ∈ invalid_tests_of blocks) :
    tb.1.passed = false ∧ tb.1 ∈ tb.2.tests ∧ tb.2 ∈ blocks := by
  unfold invalid_tests_of at h
  rw [List.mem_flatMap] at h
  obtain ⟨b, hb, hmem⟩ := h
  rw [List.mem_map] at hmem
  obtain ⟨t, ht, rfl⟩ := hmem
  have hp := (List.mem_filter.mp ht).2
  have hmem2 := (List.mem_filter.mp ht).1
  simp only [decide_eq_true_eq] at hp
  exact ⟨hp, hmem2, hb⟩

lemma invalid_blocks_mem (blocks : List TestBlock) (b : TestBlock)
    (h : b ∈ invalid_blocks_of blocks) : b.error = true ∧ b ∈ blocks := by
  unfold invalid_blocks_of at h
  exact ⟨(List.mem_filter.mp h).2, (List.mem_filter.mp h).1⟩

lemma invalid_empty_iff (blocks : List TestBlock) :
    (invalid_tests_of blocks = [] ∧ invalid_blocks_of blocks = []) ↔
      ∀ b ∈ blocks, b.error = false ∧ ∀ t ∈ b.tests, t.passed = true := by
  unfold invalid_tests_of invalid_blocks_of
  rw [List.flatMap_eq_nil_iff, List.filter_eq_nil_iff]
  constructor
  · rintro ⟨hT, hB⟩ b hb
    constructor
    · have := hB b hb
      simpa using this
    · intro t ht
      have hmap := hT b hb
      rw [List.map_eq_nil_iff, List.filter_eq_nil_iff] at hmap
      have := hmap t ht
      simpa using this
  · intro h
    constructor
    · intro b hb
      rw [List.map_eq_nil_iff, List.filter_eq_nil_iff]
      intro t ht
      have := (h b hb).2 t ht
      simp [this]
    · intro b hb
      simp [(h b hb).1]

/-- C7: the failure report produced by the Failure Detector satisfies the
stated invariants: every block in a Fail payload has error true, every test
in it is a failing test paired with its owning block, a Pass report carries
no failures, and Pass is returned exactly when the run completed with no
errored block and no failing test. -/
theorem spec_C7 (w : Evaluation) :
    ((get_invalid_tests_and_blocks w).success = TestFailure.Pass →
      (get_invalid_tests_and_blocks w).failures = none) ∧
    (∀ f, (get_invalid_tests_and_blocks w).failures = some f →
      (∀ b ∈ f.blocks, b.error = true) ∧
      (∀ tb ∈ f.tests, tb.1.passed = false ∧ tb.1 ∈ tb.2.tests ∧
        ∃ blocks, w.result = EvalResult.Ok blocks ∧ tb.2 ∈ blocks)) ∧
    ((get_invalid_tests_and_blocks w).success = TestFailure.Pass ↔
      ∃ blocks, w.result = EvalResult.Ok blocks ∧
        ∀ b ∈ blocks, b.error = false ∧ ∀ t ∈ b.tests, t.passed = true) := by
  refine ⟨detector_pass_none w, ?_, ?_⟩
  · intro f hf
    obtain ⟨blocks, hres, hT, hB, _, _⟩ := detector_some w f hf
    constructor
    · intro b hb
      rw [hB] at hb
      exact (invalid_blocks_mem blocks b hb).1
    · intro tb htb
      rw [hT] at htb
      obtain ⟨h1, h2, h3⟩ := invalid_tests_mem blocks tb htb
      exact ⟨h1, h2, blocks, hres, h3⟩
  · cases hres : w.result with
    | Err k =>
      rw [detector_err w k hres]
      simp only [reduceCtorEq, false_iff]
      rintro ⟨blocks, hb, _⟩
      exact hb
    | Ok blocks =>
      rcases detector_ok_cases w blocks hres with ⟨hrep, hT, hB⟩ | ⟨hrep, hne⟩
      · rw [hrep]
        simp only [true_iff]
        exact ⟨blocks, rfl, (invalid_empty_iff blocks).mp ⟨hT, hB⟩⟩
      · rw [hrep]
        simp only [reduceCtorEq, false_iff]
        rintro ⟨blocks2, hb2, hgood⟩
        simp only [EvalResult.Ok.injEq] at hb2
        subst hb2
        have := (invalid_empty_iff blocks).mpr hgood
        exact hne ⟨by rw [this.1]; rfl, by rw [this.2]; rfl⟩

/-- Sample passing wheat used by the C7 witness. -/
def wheatPassSample : Evaluation :=
  { code := str "p/wheat/w.arr", tests := str "t",
    result := EvalResult.Ok
      [{ name := str "b", loc := str "L", error := false,
         tests := [{ loc := str "T", passed := true }] }] }

/-- Sample block list with one errored block and one failing test, used by
the C7 witness. -/
def blocksFailSample : List TestBlock :=
  [{ name := str "b", loc := str "L", error := true,
     tests := [{ loc := str "T", passed := false }] }]

/-- Sample failing wheat used by the C7 witness. -/
def wheatFailSample : Evaluation :=
  { code := str "p/wheat/w.arr", tests := str "t",
    result := EvalResult.Ok blocksFailSample }

/-- Failure payload of the sample failing wheat. -/
def failuresSample : Failures :=
  { tests := invalid_tests_of blocksFailSample,
    blocks := invalid_blocks_of blocksFailSample }

/-- Witness for C7 at concrete inputs: a passing wheat carries no failure
payload, and every block of a failing wheat payload has error true. -/
theorem spec_C7_witness :
    (get_invalid_tests_and_blocks wheatPassSample).failures = none ∧
    (∀ b ∈ failuresSample.blocks, b.error = true) :=
  ⟨(spec_C7 wheatPassSample).1 rfl, ((spec_C7 wheatFailSample).2.1 failuresSample rfl).1⟩

lemma normalize_err (e : Evaluation) (k : ErrKind) (hk : e.result = EvalResult.Err k) :
    normalize_code_names e = e := by
  unfold normalize_code_names
  rw [hk]

lemma normalize_ok (e : Evaluation) (blocks : List TestBlock)
    (hb : e.result = EvalResult.Ok blocks) :
    normalize_code_names e = { e with result := EvalResult.Ok (blocks.map norm_block) } := by
  unfold normalize_code_names
  rw [hb]

lemma norm_test_idem (t : Test) : norm_test (norm_test t) = norm_test t := by
  unfold norm_test
  simp [get_loc_name_idem]

lemma map_norm_test_idem (l : List Test) : (l.map norm_test).map norm_test = l.map norm_test := by
  rw [List.map_map]
  exact List.map_congr_left fun t _ => norm_test_idem t

lemma norm_block_idem (b : TestBlock) : norm_block (norm_block b) = norm_block b := by
  unfold norm_block
  simp [get_loc_name_idem, map_norm_test_idem, norm_test_idem]

lemma map_norm_block_idem (l : List TestBlock) :
    (l.map norm_block).map norm_block = l.map norm_block := by
  rw [List.map_map]
  exact List.map_congr_left fun b _ => norm_block_idem b

lemma norm_block_spec (b : TestBlock) :
    norm_block b =
      { b with loc := afterLastSlash b.loc,
               tests := b.tests.map (fun t => { t with loc := afterLastSlash t.loc }) } := by
  unfold norm_block norm_test
  simp [get_loc_name_eq_afterLastSlash]

/-- C8: normalization is idempotent, leaves Err evaluations untouched, and
rewrites every block and test location inside an Ok result to the substring
after the final slash, which is a no-op on locations without a slash. -/
theorem spec_C8 (e : Evaluation) :
    normalize_code_names (normalize_code_names e) = normalize_code_names e ∧
    (∀ k, e.result = EvalResult.Err k → normalize_code_names e = e) ∧
    (∀ blocks, e.result = EvalResult.Ok blocks →
      (normalize_code_names e).result = EvalResult.Ok (blocks.map fun b =>
        { b with loc := afterLastSlash b.loc,
                 tests := b.tests.map fun t => { t with loc := afterLastSlash t.loc } })) ∧
    (∀ l : Str, '/' ∉ l → get_loc_name l = l) := by
  refine ⟨?_, ?_, ?_, ?_⟩
  · cases hres : e.result with
    | Err k => rw [normalize_err e k hres, normalize_err e k hres]
    | Ok blocks =>
      rw [normalize_ok e blocks hres]
      rw [normalize_ok { e with result := EvalResult.Ok (blocks.map norm_block) }
        (blocks.map norm_block) rfl]
      simp [map_norm_block_idem, norm_block_idem]
  · intro k hk
    exact normalize_err e k hk
  · intro blocks hb
    rw [normalize_ok e blocks hb]
    show EvalResult.Ok (blocks.map norm_block) = _
    exact congrArg EvalResult.Ok (List.map_congr_left fun b _ => norm_block_spec b)
  · intro l hl
    rw [get_loc_name_eq_afterLastSlash, afterLastSlash_of_no_slash l hl]

/-- Sample Err evaluation used by the C8 witness. -/
def errEvalSample : Evaluation :=
  { code := str "p/wheat/w.arr", tests := str "t", result := EvalResult.Err ErrKind.Timeout }

/-- Witness for C8 at concrete inputs: an Err evaluation is untouched and an
already-normalized location is unchanged. -/
theorem spec_C8_witness :
    normalize_code_names errEvalSample = errEvalSample ∧
    get_loc_name (str "tests.arr:8:0-19:3") = str "tests.arr:8:0-19:3" :=
  ⟨(spec_C8 errEvalSample).2.1 ErrKind.Timeout rfl,
   (spec_C8 errEvalSample).2.2.2 (str "tests.arr:8:0-19:3") (by decide)⟩

/-- Sample full-credit report used by C10. -/
def reportASample : GradescopeTestReport :=
  { name := str "a", output := [], score := some 1, max_score := some 1,
    visibility := .AfterPublished,
    extra_data := { sect := .Functionality, type := .Detailed } }

/-- Sample zero-score report used by C10. -/
def reportBSample : GradescopeTestReport :=
  { name := str "b", output := [], score := some 0, max_score := some 1,
    visibility := .AfterPublished,
    extra_data := { sect := .Functionality, type := .Detailed } }

/-- C10: the score aggregator adds each report's weight (the point-map value
of its name, default 1 when absent) to the possible total, and adds the
weight to the achieved total exactly when the report has full credit; on the
concrete reports a (1/1) and b (0/1) with point map a=2, b=3 it yields
achieved 2 and possible 5. -/
theorem spec_C10 :
    (∀ (reports : List GradescopeTestReport) (point_values : List (Str × Nat))
        (name : Str) (sect : ReportSection),
      (generate_score_report reports point_values name sect).score =
        some ((reports.map (fun r =>
          if r.score = r.max_score then weightOf point_values r else 0)).sum) ∧
      (generate_score_report reports point_values name sect).max_score =
        some ((reports.map (weightOf point_values)).sum)) ∧
    (generate_score_report [reportASample, reportBSample]
      [(str "a", 2), (str "b", 3)] (str "functionality") ReportSection.Functionality).score =
        some 2 ∧
    (generate_score_report [reportASample, reportBSample]
      [(str "a", 2), (str "b", 3)] (str "functionality") ReportSection.Functionality).max_score =
        some 5 := by
  refine ⟨?_, by rfl, by rfl⟩
  intro reports point_values name sect
  unfold generate_score_report
  rw [score_foldl point_values reports 0 0]
  exact ⟨by simp, by simp⟩

/-- C1 (code behavior at the failing input): a single wheat whose failure
report is Fail — one failing test, result Ok — still produces the aggregate
examplar verdict named VALID with the all-clear output, because the Fail
branch of `generate_wheat_messages` returns `valid: true` (line 429). -/
theorem spec_C1 :
    (get_invalid_tests_and_blocks
      { code := str "p/wheat/w.arr", tests := str "t",
        result := EvalResult.Ok
          [{ name := str "b", loc := str "tests.arr:1:0-2:0", error := false,
             tests := [{ loc := str "tests.arr:1:4-1:9", passed := false }] }] }).success =
      TestFailure.Fail ∧
    generate_examplar_wheat_report
      [{ code := str "p/wheat/w.arr", tests := str "t",
         result := EvalResult.Ok
           [{ name := str "b", loc := str "tests.arr:1:0-2:0", error := false,
              tests := [{ loc := str "tests.arr:1:4-1:9", passed := false }] }] }] =
      .ok { name := str "VALID",
            output := str "These tests are valid and consistent with the assignment handout.",
            score := none, max_score := none,
            visibility := .Visible,
            extra_data := { sect := .Wheat, type := .Examplar } } :=
  ⟨rfl, rfl⟩

/-- C5: whenever the wheat list contains an evaluation whose result is Err,
building the detailed chaff reports dereferences the absent failures payload
of that wheat's Err report and fails with a TypeError instead of producing
reports, for every chaff list including the empty one. -/
theorem spec_C5 (wheat_results chaff_results : List Evaluation)
    (h : ∃ w ∈ wheat_results, ∃ k, w.result = EvalResult.Err k) :
    detailed_chaff_reports wheat_results chaff_results = .error typeErrorMsg := by
  unfold detailed_chaff_reports all_invalid_locs
  rw [invalid_fold_error wheat_results ([], []) h]

/-- Witness for C5 at a concrete input: one Err wheat and zero chaffs. -/
theorem spec_C5_witness :
    detailed_chaff_reports
      [{ code := str "p/wheat/w.arr", tests := str "t", result := EvalResult.Err ErrKind.Runtime }]
      [] = .error typeErrorMsg :=
  spec_C5 _ _ ⟨_, List.mem_cons_self _ _, ErrKind.Runtime, rfl⟩

lemma inner_score (locs : List Str) (chaff : Evaluation) :
    (generate_detailed_chaff_report_inner locs chaff).score =
      some (get_score_and_output locs chaff).2 := rfl

lemma inner_output (locs : List Str) (chaff : Evaluation) :
    (generate_detailed_chaff_report_inner locs chaff).output =
      (get_score_and_output locs chaff).1 := rfl

/-- C2: with the known-bad locations built from the wheats, a chaff whose
result is Err scores 1; a chaff whose result is Ok scores 1 exactly when it
has an errored block or failing test whose location is outside the known-bad
set, and 0 otherwise; with zero wheats the known-bad set is empty. -/
theorem spec_C2 :
    (∀ (wheat_results : List Evaluation) (locs : List Str),
      all_invalid_locs wheat_results = .ok locs →
      ∀ (chaff : Evaluation),
        ((∃ k, chaff.result = EvalResult.Err k) →
          (generate_detailed_chaff_report_inner locs chaff).score = some 1) ∧
        (∀ blocks, chaff.result = EvalResult.Ok blocks →
          (((generate_detailed_chaff_report_inner locs chaff).score = some 1) ↔
            ∃ b ∈ blocks, (b.error = true ∧ b.loc ∉ locs) ∨
              ∃ t ∈ b.tests, t.passed = false ∧ t.loc ∉ locs) ∧
          ((¬ ∃ b ∈ blocks, (b.error = true ∧ b.loc ∉ locs) ∨
              ∃ t ∈ b.tests, t.passed = false ∧ t.loc ∉ locs) →
            (generate_detailed_chaff_report_inner locs chaff).score = some 0))) ∧
    all_invalid_locs [] = .ok [] := by
  constructor
  · intro wheat_results locs _ chaff
    constructor
    · rintro ⟨k, hk⟩
      rw [inner_score]
      unfold get_score_and_output
      rw [hk]
    · intro blocks hb
      have hscan : (get_score_and_output locs chaff).2 = (chaff_scan locs blocks).2 := by
        unfold get_score_and_output
        rw [hb]
      constructor
      · rw [inner_score, hscan]
        simp only [Option.some.injEq]
        exact chaff_scan_caught_iff locs blocks
      · intro hno
        rw [inner_score, hscan]
        rcases chaff_scan_snd_zero_or_one locs blocks with h0 | h1
        · rw [h0]
        · exact absurd ((chaff_scan_caught_iff locs blocks).mp h1) hno
  · rfl

/-- Sample chaff with a single failing test, used by the C2 witness. -/
def chaffC2sample : Evaluation :=
  { code := str "p/chaff/c.arr", tests := str "t",
    result := EvalResult.Ok
      [{ name := str "b", loc := str "L", error := false,
         tests := [{ loc := str "T", passed := false }] }] }

/-- Witness for C2 at a concrete input: zero wheats, one chaff with one
genuine failing test, which scores 1. -/
theorem spec_C2_witness :
    (generate_detailed_chaff_report_inner [] chaffC2sample).score = some 1 :=
  (((spec_C2.1 [] [] rfl chaffC2sample).2 _ rfl).1).mpr
    ⟨_, List.mem_cons_self _ _,
      Or.inr ⟨_, List.mem_cons_self _ _, rfl, List.not_mem_nil _⟩⟩

/-- Sample block list whose first block has an unmasked failing test and
whose second block is an unmasked errored block, used for C3. -/
def blocksC3sample : List TestBlock :=
  [{ name := str "x", loc := str "L1", error := false,
     tests := [{ loc := str "T1", passed := false }] },
   { name := str "q", loc := str "L2", error := true, tests := [] }]

/-- Sample chaff built from the C3 block list. -/
def chaffC3sample : Evaluation :=
  { code := str "p/chaff/c.arr", tests := str "t",
    result := EvalResult.Ok blocksC3sample }

/-- C3 counterexample: with an empty known-bad set, this chaff contains an
unmasked errored block (the second block, named q) and an earlier-positioned
unmasked failing test (in the first block, named x); the caught verdict
cites the failing test's block x, not the errored block q, refuting the
claimed blocks-before-tests priority. -/
theorem spec_C3_counterexample :
    (∃ b ∈ blocksC3sample, b.error = true ∧ b.loc ∉ ([] : List Str)) ∧
    (generate_detailed_chaff_report_inner [] chaffC3sample).output =
      str "Chaff caught; test failed in block \"x\"!" ∧
    (generate_detailed_chaff_report_inner [] chaffC3sample).output ≠
      str "Chaff caught; error in block \"q\"!" := by
  refine ⟨?_, rfl, by decide⟩
  exact ⟨_, List.mem_cons_of_mem _ (List.mem_cons_self _ _), rfl, List.not_mem_nil _⟩

lemma chaff_scan_first_hit (locs : List Str) (pre : List TestBlock) (b : TestBlock)
    (post : List TestBlock)
    (hpre : ∀ b2 ∈ pre, ¬(b2.error = true ∧ b2.loc ∉ locs) ∧
      ∀ t ∈ b2.tests, ¬(t.passed = false ∧ t.loc ∉ locs))
    (hhit : (b.error = true ∧ b.loc ∉ locs) ∨
      ∃ t ∈ b.tests, t.passed = false ∧ t.loc ∉ locs) :
    chaff_scan locs (pre ++ b :: post) =
      (if b.error = true ∧ b.loc ∉ locs then
        str "Chaff caught; error in block \"" ++ b.name ++ str "\"!"
      else str "Chaff caught; test failed in block \"" ++ b.name ++ str "\"!", 1) := by
  induction pre with
  | nil => exact chaff_scan_cons_hit locs b post hhit
  | cons p ps ih =>
    have hp := hpre p (List.mem_cons_self p ps)
    rw [List.cons_append, chaff_scan_cons_skip locs p (ps ++ b :: post) hp.1 hp.2]
    exact ih fun b2 hb2 => hpre b2 (List.mem_cons_of_mem p hb2)

/-- C3 amended: the caught verdict comes from the first block, in order,
that is either an unmasked errored block or contains an unmasked failing
test; within that block the error condition takes priority over its tests,
but an unmasked failing test in an earlier block takes precedence over an
unmasked errored block in a later block. -/
theorem spec_C3_amended (locs : List Str) (chaff : Evaluation)
    (pre : List TestBlock) (b : TestBlock) (post : List TestBlock)
    (hres : chaff.result = EvalResult.Ok (pre ++ b :: post))
    (hpre : ∀ b2 ∈ pre, ¬(b2.error = true ∧ b2.loc ∉ locs) ∧
      ∀ t ∈ b2.tests, ¬(t.passed = false ∧ t.loc ∉ locs))
    (hhit : (b.error = true ∧ b.loc ∉ locs) ∨
      ∃ t ∈ b.tests, t.passed = false ∧ t.loc ∉ locs) :
    (generate_detailed_chaff_report_inner locs chaff).score = some 1 ∧
    (generate_detailed_chaff_report_inner locs chaff).output =
      (if b.error = true ∧ b.loc ∉ locs then
        str "Chaff caught; error in block \"" ++ b.name ++ str "\"!"
      else str "Chaff caught; test failed in block \"" ++ b.name ++ str "\"!") := by
  rw [inner_score, inner_output]
  unfold get_score_and_output
  rw [hres]
  dsimp only
  rw [chaff_scan_first_hit locs pre b post hpre hhit]
  exact ⟨rfl, rfl⟩

/-- Sample one-block chaff whose block errors, used by the C3 amended
witness. -/
def chaffC3errSample : Evaluation :=
  { code := str "p/chaff/c.arr", tests := str "t",
    result := EvalResult.Ok
      [{ name := str "e", loc := str "L", error := true, tests := [] }] }

/-- Witness for the amended C3 at a concrete input. -/
theorem spec_C3_amended_witness :
    (generate_detailed_chaff_report_inner [] chaffC3errSample).score = some 1 :=
  (spec_C3_amended [] chaffC3errSample []
    { name := str "e", loc := str "L", error := true, tests := [] } [] rfl
    (by simp) (Or.inl ⟨rfl, List.not_mem_nil _⟩)).1

/-- Sample wheat with a failing test in block x and a later errored block q,
used for C4. -/
def wheatC4sample : Evaluation :=
  { code := str "p/wheat/w.arr", tests := str "t",
    result := EvalResult.Ok
      [{ name := str "x", loc := str "L1", error := false,
         tests := [{ loc := str "T1", passed := false }] },
       { name := str "q", loc := str "L2", error := true, tests := [] }] }

/-- C4 counterexample: this wheat report is Fail with at least one failing
test (in block x) and at least one errored block (q); the detailed report
output is the block-error message for q and never mentions block x (the
character x does not occur in it), refuting the claimed tests-first
priority. -/
theorem spec_C4_counterexample :
    generate_detailed_wheat_report wheatC4sample =
      .ok (detailedWheatReportOf wheatC4sample
        (str "Wheat caused error in block \"q\"\n", 0)) ∧
    'x' ∉ str "Wheat caused error in block \"q\"\n" := by
  exact ⟨rfl, by decide⟩

/-- C4 amended: the detailed per-wheat report scores 1/1 exactly when the
report is Pass and 0/1 otherwise; when the report is Fail, the block loop
overwrites the test messages, so with at least one errored block the output
is the error message of the last errored block, and only when there is no
errored block does the output list every failing test message in order. -/
theorem spec_C4_amended (w : Evaluation) (r : GradescopeTestReport)
    (hr : generate_detailed_wheat_report w = .ok r) :
    r.max_score = some 1 ∧
    (r.score = some 1 ↔ (get_invalid_tests_and_blocks w).success = TestFailure.Pass) ∧
    (∀ invalids, (get_invalid_tests_and_blocks w).failures = some invalids →
      (invalids.blocks ≠ [] →
        r.output = detailedWheatBlockMsg
          (invalids.blocks.getLastD { name := [], loc := [], error := false, tests := [] })) ∧
      (invalids.blocks = [] →
        r.output = (invalids.tests.map detailedWheatTestMsg).flatten)) := by
  unfold generate_detailed_wheat_report at hr
  dsimp only at hr
  cases hsucc : (get_invalid_tests_and_blocks w).success with
  | Pass =>
    rw [hsucc] at hr
    simp only [Except.ok.injEq] at hr
    subst hr
    refine ⟨rfl, by simp [detailedWheatReportOf], ?_⟩
    intro invalids hinv
    rw [detector_pass_none w hsucc] at hinv
    cases hinv
  | Err =>
    rw [hsucc] at hr
    simp only [Except.ok.injEq] at hr
    subst hr
    refine ⟨rfl, ?_, ?_⟩
    · constructor
      · intro h1
        exact absurd h1 (by simp [detailedWheatReportOf])
      · intro h2
        exact absurd h2 (by simp)
    · intro invalids hinv
      rw [detector_err_none w hsucc] at hinv
      cases hinv
  | Fail =>
    rw [hsucc] at hr
    cases hf : (get_invalid_tests_and_blocks w).failures with
    | none =>
      rw [hf] at hr
      exact absurd hr (by simp)
    | some invalids =>
      rw [hf] at hr
      dsimp only at hr
      by_cases hout :
          invalids.blocks.foldl (fun _ block => detailedWheatBlockMsg block)
            (invalids.tests.foldl (fun acc tb => acc ++ detailedWheatTestMsg tb) []) = []
      · rw [if_pos hout] at hr
        exact absurd hr (by simp)
      · rw [if_neg hout] at hr
        simp only [Except.ok.injEq] at hr
        subst hr
        refine ⟨rfl, ?_, ?_⟩
        · constructor
          · intro h1
            exact absurd h1 (by simp [detailedWheatReportOf])
          · intro h2
            exact absurd h2 (by simp)
        · intro invalids2 hinv2
          simp only [Option.some.injEq] at hinv2
          subst hinv2
          constructor
          · intro hbne
            show invalids.blocks.foldl (fun _ block => detailedWheatBlockMsg block) _ = _
            exact foldl_clobber detailedWheatBlockMsg invalids.blocks _ _ hbne
          · intro hbe
            show invalids.blocks.foldl (fun _ block => detailedWheatBlockMsg block)
              (invalids.tests.foldl (fun acc tb => acc ++ detailedWheatTestMsg tb) []) = _
            rw [hbe, List.foldl_nil, foldl_append_flatten detailedWheatTestMsg invalids.tests []]
            rfl

/-- Sample failing wheat with one failing test and no errored block, used by
the C4 amended witness. -/
def wheatC4testsOnly : Evaluation :=
  { code := str "p/wheat/w.arr", tests := str "t",
    result := EvalResult.Ok
      [{ name := str "x", loc := str "L1", error := false,
         tests := [{ loc := str "T1", passed := false }] }] }

/-- Witness for the amended C4 at a concrete input: the report of a
tests-only failing wheat scores 0/1. -/
theorem spec_C4_amended_witness :
    ((generate_detailed_wheat_report wheatC4testsOnly =
        .ok (detailedWheatReportOf wheatC4testsOnly
          (str "Wheat failed test in block \"x\" at location T1\n", 0))) ∧
      ¬ ((detailedWheatReportOf wheatC4testsOnly
          (str "Wheat failed test in block \"x\" at location T1\n", 0)).score = some 1)) ∧
    True :=
  ⟨⟨rfl, fun h =>
      absurd ((spec_C4_amended wheatC4testsOnly _ rfl).2.1.mp h) (by decide)⟩, trivial⟩

/-- C6: whenever the examplar wheat loop accumulates messages with the
invalid flag set, the INVALID report output is the header followed by the
deduplicated messages, and the JavaScript indexOf-filter deduplication keeps
each distinct message exactly once, at its first occurrence, preserving the
relative order of the kept messages. -/
theorem spec_C6 (wheat_results : List Evaluation) (msgs : List Str)
    (h : collect_wheat_messages wheat_results = .ok (false, msgs)) :
    generate_examplar_wheat_report wheat_results =
      .ok { name := str "INVALID",
            output := str "Your test suite failed at least one of our wheats.\n"
              ++ List.intercalate (str "\n") (jsDedup msgs),
            score := none, max_score := none, visibility := .Visible,
            extra_data := { sect := .Wheat, type := .Examplar } } ∧
    jsDedup msgs = firstOccDedup msgs ∧
    (∀ m, (jsDedup msgs).count m = if m ∈ msgs then 1 else 0) ∧
    (jsDedup msgs).Sublist msgs ∧
    (jsDedup msgs).Nodup := by
  refine ⟨?_, jsDedup_eq_firstOccDedup msgs, ?_, ?_, ?_⟩
  · unfold generate_examplar_wheat_report
    rw [h]
    rfl
  · intro m
    rw [jsDedup_eq_firstOccDedup]
    exact firstOccDedup_count msgs m
  · rw [jsDedup_eq_firstOccDedup]
    exact firstOccDedup_sublist msgs
  · rw [jsDedup_eq_firstOccDedup]
    exact firstOccDedup_nodup msgs

/-- Sample Err wheat used by the C6 witness. -/
def errWheatSample : Evaluation :=
  { code := str "p/wheat/w.arr", tests := str "t",
    result := EvalResult.Err ErrKind.Timeout }

/-- Witness for C6 at a concrete input: two wheats producing the identical
message keep it once in the INVALID output. -/
theorem spec_C6_witness :
    generate_examplar_wheat_report [errWheatSample, errWheatSample] =
      .ok { name := str "INVALID",
            output := str "Your test suite failed at least one of our wheats.\n"
              ++ List.intercalate (str "\n")
                  (jsDedup [str "Wheat errored; Timeout", str "Wheat errored; Timeout"]),
            score := none, max_score := none, visibility := .Visible,
            extra_data := { sect := .Wheat, type := .Examplar } } ∧
    jsDedup [str "Wheat errored; Timeout", str "Wheat errored; Timeout"] =
      [str "Wheat errored; Timeout"] :=
  ⟨(spec_C6 [errWheatSample, errWheatSample]
      [str "Wheat errored; Timeout", str "Wheat errored; Timeout"] rfl).1, rfl⟩

/-- C9: a Fail-tagged failure report carrying zero failing tests and zero
errored blocks makes the wheat and chaff examplar generators raise the fatal
no-reason-given error instead of degrading to Pass, and the branch is
unreachable for reports actually produced by the Failure Detector, whose
Fail payloads always carry a failing test or an errored block. -/
theorem spec_C9 :
    (∀ (w : Evaluation) (tr : TestFailureReport),
      tr.success = TestFailure.Fail → tr.failures = some { tests := [], blocks := [] } →
      wheat_messages_from_report w tr =
        .error (str "Contact instructor; Wheat failed, but no reason given.")) ∧
    (∀ (c : Evaluation) (n : Nat) (tr : TestFailureReport),
      tr.success = TestFailure.Fail → tr.failures = some { tests := [], blocks := [] } →
      chaff_examplar_from_report c n tr =
        .error (str "Contact instructor; Chaff failed, but no reason given.")) ∧
    (∀ (e : Evaluation) (f : Failures),
      (get_invalid_tests_and_blocks e).failures = some f →
      f.tests ≠ [] ∨ f.blocks ≠ []) := by
  refine ⟨?_, ?_, ?_⟩
  · intro w tr hs hf
    unfold wheat_messages_from_report
    rw [hs, hf]
    rfl
  · intro c n tr hs hf
    unfold chaff_examplar_from_report
    rw [hs, hf]
    rfl
  · intro e f hf
    obtain ⟨blocks, _, hT, hB, hne, _⟩ := detector_some e f hf
    by_cases ht : f.tests = []
    · right
      intro hb
      apply hne
      constructor
      · rw [← hT, ht]
        rfl
      · rw [← hB, hb]
        rfl
    · left
      exact ht

/-- Sample evaluation with one failing test, used by the C9 witness. -/
def wheatC9sample : Evaluation :=
  { code := str "p/wheat/w.arr", tests := str "t",
    result := EvalResult.Ok
      [{ name := str "b", loc := str "L", error := false,
         tests := [{ loc := str "T", passed := false }] }] }

/-- Failure payload of the C9 sample evaluation. -/
def failuresC9sample : Failures :=
  { tests := invalid_tests_of
      [{ name := str "b", loc := str "L", error := false,
         tests := [{ loc := str "T", passed := false }] }],
    blocks := invalid_blocks_of
      [{ name := str "b", loc := str "L", error := false,
         tests := [{ loc := str "T", passed := false }] }] }

/-- Witness for C9 at concrete inputs: the fatal error on an empty Fail
payload, and nonemptiness of a payload actually produced by the detector. -/
theorem spec_C9_witness :
    wheat_messages_from_report wheatC9sample
        { success := TestFailure.Fail, failures := some { tests := [], blocks := [] } } =
      .error (str "Contact instructor; Wheat failed, but no reason given.") ∧
    (failuresC9sample.tests ≠ [] ∨ failuresC9sample.blocks ≠ []) :=
  ⟨spec_C9.1 wheatC9sample _ rfl rfl, spec_C9.2.2 wheatC9sample failuresC9sample rfl⟩
